import Mathlib

/-!
Verification of the `bevy_pkv` typed key-value persistence layer.

This file gives a shallow embedding of the store backends found under
`src/` (the sled backend `sled_store.rs`, the redb backend `redb_store.rs`,
the pickledb backend `pickledb_store.rs`, the browser local-storage backend
`local_storage_store.rs`) together with the persistence lifecycle manager
(`persistent_resource.rs`) and the store facade (`lib.rs`), and proves the
specification claims about them.

Values are modelled by the fragment of the serde data model the crate
exercises: unit, booleans, integers (64-bit signed/unsigned range), strings
(as UTF-8 byte lists) and structs with named fields.  The MessagePack codec
used by the sled and redb backends (the external `rmp_serde` crate,
`Serializer::new(..).with_struct_map()` for `set` and `rmp_serde::to_vec`
for `set_string`) is modelled by an executable encoder/decoder pair for
that fragment of the MessagePack wire format: positive/negative fixint,
uint8/16/32/64, int8/16/32/64, fixstr/str8/16/32, fixarray/array16/32 and
fixmap/map16/32.  Floats, bin and ext types fall outside the modelled value
universe.  The browser backend's JSON codec (external `serde_json`) is
modelled for string values, the only shape the relevant claims exercise.
-/

/-- Big-endian byte encoding of `n` on `k` bytes (most significant first),
as used by the MessagePack uint16/32/64 and length fields. -/
def beBytes : Nat → Nat → List Nat
  | 0, _ => []
  | k+1, n => (n / 256 ^ k % 256) :: beBytes k n

/-- Read `k` big-endian bytes, accumulating into `acc`; returns the decoded
number and the remaining input, or `none` if the input is too short. -/
def rdBe : Nat → Nat → List Nat → Option (Nat × List Nat)
  | 0, acc, bs => some (acc, bs)
  | _+1, _, [] => none
  | k+1, acc, b :: bs => rdBe k (acc * 256 + b) bs

/-- Two's-complement reinterpretation of a `w`-bit unsigned value as a
signed integer, as MessagePack int8/16/32/64 decoding performs. -/
def sint (w : Nat) (x : Nat) : Int :=
  if x < 2 ^ (w - 1) then (x : Int) else (x : Int) - 2 ^ w

mutual
/-- The MessagePack value fragment produced by `rmp_serde` for the modelled
serde values: nil, booleans, integers, raw (UTF-8) strings, arrays and maps. -/
inductive MpValue where
  | nil
  | bool (b : Bool)
  | int (n : Int)
  | str (s : List Nat)
  | arr (vs : MpList)
  | map (kvs : MpPairs)
deriving DecidableEq

/-- A list of MessagePack values (array elements). -/
inductive MpList where
  | nil
  | cons (v : MpValue) (rest : MpList)

/-- A list of MessagePack key-value pairs (map entries). -/
inductive MpPairs where
  | nil
  | cons (k : MpValue) (v : MpValue) (rest : MpPairs)
end

/-- Number of elements of an `MpList`. -/
def mpLen : MpList → Nat
  | .nil => 0
  | .cons _ rest => mpLen rest + 1

/-- Number of entries of an `MpPairs`. -/
def mpPairsLen : MpPairs → Nat
  | .nil => 0
  | .cons _ _ rest => mpPairsLen rest + 1

/-- Most-compact MessagePack integer encoding, as `rmp` writes integers:
positive fixint, uint8/16/32/64 for non-negative values, negative fixint,
int8/16/32/64 for negative values. -/
def encInt (n : Int) : List Nat :=
  if 0 ≤ n then
    if n.toNat < 0x80 then [n.toNat]
    else if n.toNat < 0x100 then [0xcc, n.toNat]
    else if n.toNat < 0x10000 then 0xcd :: beBytes 2 n.toNat
    else if n.toNat < 0x100000000 then 0xce :: beBytes 4 n.toNat
    else 0xcf :: beBytes 8 n.toNat
  else
    if (-n).toNat ≤ 0x20 then [0x100 - (-n).toNat]
    else if (-n).toNat ≤ 0x80 then [0xd0, 0x100 - (-n).toNat]
    else if (-n).toNat ≤ 0x8000 then 0xd1 :: beBytes 2 (0x10000 - (-n).toNat)
    else if (-n).toNat ≤ 0x80000000 then
      0xd2 :: beBytes 4 (0x100000000 - (-n).toNat)
    else 0xd3 :: beBytes 8 (0x10000000000000000 - (-n).toNat)

/-- MessagePack string header (fixstr / str8 / str16 / str32) for a string
of `len` bytes. -/
def strHeader (len : Nat) : List Nat :=
  if len < 32 then [0xa0 + len]
  else if len < 0x100 then [0xd9, len]
  else if len < 0x10000 then 0xda :: beBytes 2 len
  else 0xdb :: beBytes 4 len

/-- MessagePack array header (fixarray / array16 / array32) for `n` elements. -/
def arrHeader (n : Nat) : List Nat :=
  if n < 16 then [0x90 + n]
  else if n < 0x10000 then 0xdc :: beBytes 2 n
  else 0xdd :: beBytes 4 n

/-- MessagePack map header (fixmap / map16 / map32) for `n` entries. -/
def mapHeader (n : Nat) : List Nat :=
  if n < 16 then [0x80 + n]
  else if n < 0x10000 then 0xde :: beBytes 2 n
  else 0xdf :: beBytes 4 n

mutual
/-- MessagePack encoding of a value, following the format `rmp` writes. -/
def encMp : MpValue → List Nat
  | .nil => [0xc0]
  | .bool false => [0xc2]
  | .bool true => [0xc3]
  | .int n => encInt n
  | .str s => strHeader s.length ++ s
  | .arr vs => arrHeader (mpLen vs) ++ encList vs
  | .map kvs => mapHeader (mpPairsLen kvs) ++ encPairs kvs

/-- Concatenated encodings of array elements. -/
def encList : MpList → List Nat
  | .nil => []
  | .cons v rest => encMp v ++ encList rest

/-- Concatenated encodings of map entries (key then value). -/
def encPairs : MpPairs → List Nat
  | .nil => []
  | .cons k v rest => encMp k ++ encMp v ++ encPairs rest
end

mutual
/-- Well-formedness of an `MpValue` as a representable wire value: integers
fit the 64-bit signed/unsigned range `rmp` accepts, string bytes are bytes,
and string/array/map lengths fit their 32-bit length fields. -/
def wfM : MpValue → Bool
  | .nil => true
  | .bool _ => true
  | .int n => decide (-(2 : Int) ^ 63 ≤ n) && decide (n < 2 ^ 64)
  | .str s => decide (s.length < 2 ^ 32) && s.all (fun b => decide (b < 256))
  | .arr vs => decide (mpLen vs < 2 ^ 32) && wfL vs
  | .map kvs => decide (mpPairsLen kvs < 2 ^ 32) && wfP kvs

/-- Well-formedness of every element of an `MpList`. -/
def wfL : MpList → Bool
  | .nil => true
  | .cons v rest => wfM v && wfL rest

/-- Well-formedness of every key and value of an `MpPairs`. -/
def wfP : MpPairs → Bool
  | .nil => true
  | .cons k v rest => wfM k && wfM v && wfP rest
end

/-- Result of parsing one MessagePack header: a complete scalar/string
value, or an array/map header announcing `n` following elements/entries. -/
inductive MpHead where
  | val (v : MpValue)
  | arrH (n : Nat)
  | mapH (n : Nat)

/-- Read `len` raw string bytes after a string header. -/
def readStr (len : Nat) (bs : List Nat) : Option (MpHead × List Nat) :=
  if len ≤ bs.length then some (.val (.str (bs.take len)), bs.drop len) else none

/-- Parse one MessagePack header (and, for scalars and strings, the complete
value) from the front of the input.  Format bytes not produced for the
modelled value universe (floats, bin, ext, 0xc1) yield `none`. -/
def decHead : List Nat → Option (MpHead × List Nat)
  | [] => none
  | b :: bs =>
    if b < 0x80 then some (.val (.int (b : Int)), bs)
    else if 0xe0 ≤ b ∧ b ≤ 0xff then some (.val (.int ((b : Int) - 0x100)), bs)
    else if b < 0x90 then some (.mapH (b - 0x80), bs)
    else if b < 0xa0 then some (.arrH (b - 0x90), bs)
    else if b < 0xc0 then readStr (b - 0xa0) bs
    else if b = 0xc0 then some (.val .nil, bs)
    else if b = 0xc2 then some (.val (.bool false), bs)
    else if b = 0xc3 then some (.val (.bool true), bs)
    else if b = 0xcc then
      match bs with
      | c :: r => some (.val (.int (c : Int)), r)
      | [] => none
    else if b = 0xcd then
      match rdBe 2 0 bs with
      | some (x, r) => some (.val (.int (x : Int)), r)
      | none => none
    else if b = 0xce then
      match rdBe 4 0 bs with
      | some (x, r) => some (.val (.int (x : Int)), r)
      | none => none
    else if b = 0xcf then
      match rdBe 8 0 bs with
      | some (x, r) => some (.val (.int (x : Int)), r)
      | none => none
    else if b = 0xd0 then
      match bs with
      | c :: r => some (.val (.int (sint 8 c)), r)
      | [] => none
    else if b = 0xd1 then
      match rdBe 2 0 bs with
      | some (x, r) => some (.val (.int (sint 16 x)), r)
      | none => none
    else if b = 0xd2 then
      match rdBe 4 0 bs with
      | some (x, r) => some (.val (.int (sint 32 x)), r)
      | none => none
    else if b = 0xd3 then
      match rdBe 8 0 bs with
      | some (x, r) => some (.val (.int (sint 64 x)), r)
      | none => none
    else if b = 0xd9 then
      match bs with
      | c :: r => readStr c r
      | [] => none
    else if b = 0xda then
      match rdBe 2 0 bs with
      | some (x, r) => readStr x r
      | none => none
    else if b = 0xdb then
      match rdBe 4 0 bs with
      | some (x, r) => readStr x r
      | none => none
    else if b = 0xdc then
      match rdBe 2 0 bs with
      | some (x, r) => some (.arrH x, r)
      | none => none
    else if b = 0xdd then
      match rdBe 4 0 bs with
      | some (x, r) => some (.arrH x, r)
      | none => none
    else if b = 0xde then
      match rdBe 2 0 bs with
      | some (x, r) => some (.mapH x, r)
      | none => none
    else if b = 0xdf then
      match rdBe 4 0 bs with
      | some (x, r) => some (.mapH x, r)
      | none => none
    else none

/-- Parse `n` consecutive values with the element parser `p`. -/
def parseN (p : List Nat → Option (MpValue × List Nat)) :
    Nat → List Nat → Option (MpList × List Nat)
  | 0, bs => some (.nil, bs)
  | n+1, bs =>
    match p bs with
    | none => none
    | some (v, r) =>
      match parseN p n r with
      | none => none
      | some (vs, r2) => some (.cons v vs, r2)

/-- Parse `n` consecutive key-value pairs with the element parser `p`. -/
def parsePairsN (p : List Nat → Option (MpValue × List Nat)) :
    Nat → List Nat → Option (MpPairs × List Nat)
  | 0, bs => some (.nil, bs)
  | n+1, bs =>
    match p bs with
    | none => none
    | some (k, r) =>
      match p r with
      | none => none
      | some (v, r2) =>
        match parsePairsN p n r2 with
        | none => none
        | some (kvs, r3) => some (.cons k v kvs, r3)

/-- MessagePack decoder: parse one value from the front of the input.  The
fuel argument bounds the recursion depth; one byte of input is consumed per
recursion level, so input length is always sufficient fuel. -/
def decMp : Nat → List Nat → Option (MpValue × List Nat)
  | 0, _ => none
  | fuel+1, bs =>
    match decHead bs with
    | some (.val v, r) => some (v, r)
    | some (.arrH n, r) =>
      match parseN (fun x => decMp fuel x) n r with
      | none => none
      | some (vs, r2) => some (.arr vs, r2)
    | some (.mapH n, r) =>
      match parsePairsN (fun x => decMp fuel x) n r with
      | none => none
      | some (kvs, r2) => some (.map kvs, r2)
    | none => none

mutual
/-- The fragment of the serde data model the crate's claims exercise: unit,
booleans, integers, strings (UTF-8 byte lists) and structs with named
fields.  Field names are the UTF-8 bytes of the Rust field identifiers. -/
inductive SerdeValue where
  | nil
  | bool (b : Bool)
  | int (n : Int)
  | str (s : List Nat)
  | strct (fields : SFields)
deriving DecidableEq

/-- The named fields of a struct value, in declaration order. -/
inductive SFields where
  | nil
  | cons (name : List Nat) (v : SerdeValue) (rest : SFields)
end

mutual
/-- A serde type shape: what `get::<T>` requests.  Mirrors `Deserialize`
for the modelled value universe. -/
inductive Shape where
  | nil
  | bool
  | int
  | str
  | strct (fields : ShapeFields)

/-- Declared fields of a struct shape, in declaration order. -/
inductive ShapeFields where
  | nil
  | cons (name : List Nat) (sh : Shape) (rest : ShapeFields)
end

/-- Number of fields of a struct value. -/
def sfLen : SFields → Nat
  | .nil => 0
  | .cons _ _ rest => sfLen rest + 1

/-- Whether a field named `n` occurs in `fs`. -/
def hasName (n : List Nat) : SFields → Bool
  | .nil => false
  | .cons m _ rest => (m = n : Bool) || hasName n rest

mutual
/-- Lowering of a serde value into the MessagePack data model in
struct-map mode, as `rmp_serde::Serializer::new(..).with_struct_map()`
serializes it: structs become maps whose keys are the field-name strings. -/
def lowerMp : SerdeValue → MpValue
  | .nil => .nil
  | .bool b => .bool b
  | .int n => .int n
  | .str s => .str s
  | .strct fs => .map (lowerFields fs)

/-- Struct fields lowered to MessagePack map entries: field-name string
key, lowered value. -/
def lowerFields : SFields → MpPairs
  | .nil => .nil
  | .cons n v rest => .cons (.str n) (lowerMp v) (lowerFields rest)
end

mutual
/-- The shape of a serde value: the `T` whose `Deserialize` matches it. -/
def shapeOf : SerdeValue → Shape
  | .nil => .nil
  | .bool _ => .bool
  | .int _ => .int
  | .str _ => .str
  | .strct fs => .strct (shapeOfFields fs)

/-- Shapes of struct fields. -/
def shapeOfFields : SFields → ShapeFields
  | .nil => .nil
  | .cons n v rest => .cons n (shapeOf v) (shapeOfFields rest)
end

/-- Well-formedness of a field name: its byte length fits the string
length field and its bytes are ASCII (Rust identifiers are). -/
def nameOk (n : List Nat) : Bool :=
  decide (n.length < 2 ^ 32) && n.all (fun b => decide (b < 128))

mutual
/-- Well-formedness of a serde value: integers in the 64-bit range the
codec accepts, string bytes and lengths in range, struct field names
well-formed and distinct (as Rust struct fields are). -/
def wfS : SerdeValue → Bool
  | .nil => true
  | .bool _ => true
  | .int n => decide (-(2 : Int) ^ 63 ≤ n) && decide (n < 2 ^ 64)
  | .str s => decide (s.length < 2 ^ 32) && s.all (fun b => decide (b < 256))
  | .strct fs => decide (sfLen fs < 2 ^ 32) && wfSFields fs

/-- Well-formedness of struct fields, including distinctness of names. -/
def wfSFields : SFields → Bool
  | .nil => true
  | .cons n v rest => nameOk n && !hasName n rest && wfS v && wfSFields rest
end

/-- Look up a map entry by string key, as serde struct deserialization
resolves a field identifier; non-string keys are skipped. -/
def lookupPairs (target : List Nat) : MpPairs → Option MpValue
  | .nil => none
  | .cons key v rest =>
    match key with
    | .str s => if s = target then some v else lookupPairs target rest
    | _ => lookupPairs target rest

mutual
/-- Typed view of a decoded MessagePack value at a requested shape,
mirroring what `Deserialize` for `T` accepts: scalars and strings must
match exactly; a struct is read from a map by looking up each declared
field name, ignoring unknown entries and failing on missing fields
(serde-derive defaults).  A shape mismatch is a decode failure (`none`). -/
def coerce : Shape → MpValue → Option SerdeValue
  | .nil, .nil => some .nil
  | .bool, .bool b => some (.bool b)
  | .int, .int n => some (.int n)
  | .str, .str s => some (.str s)
  | .strct sf, .map kvs =>
    match coerceFields sf kvs with
    | none => none
    | some fs => some (.strct fs)
  | _, _ => none

/-- Read each declared struct field from the map entries. -/
def coerceFields : ShapeFields → MpPairs → Option SFields
  | .nil, _ => some .nil
  | .cons n sh rest, kvs =>
    match lookupPairs n kvs with
    | none => none
    | some m =>
      match coerce sh m with
      | none => none
      | some v =>
        match coerceFields rest kvs with
        | none => none
        | some fs => some (.cons n v fs)
end

/-- Membership of a named field in a struct's field list. -/
inductive FieldMem : List Nat → SerdeValue → SFields → Prop
  | head (n : List Nat) (v : SerdeValue) (rest : SFields) :
      FieldMem n v (.cons n v rest)
  | tail (n : List Nat) (v : SerdeValue) (m : List Nat) (w : SerdeValue)
      (rest : SFields) : FieldMem n v rest → FieldMem n v (.cons m w rest)

deriving instance DecidableEq for Except

/-- The abstract error kinds of the store contract's `get`, instantiated
per backend: `notFound` (key absent), `decode` (record present but not
deserializable as the requested type, e.g. `rmp_serde::decode::Error`),
`tableMissing` (redb `TableError::TableDoesNotExist` from `open_table`),
`storageFail` (engine I/O errors). -/
inductive GetErr where
  | notFound
  | decode
  | tableMissing
  | storageFail
deriving DecidableEq

/-- Error kinds of `set`: engine I/O failure or serialization failure. -/
inductive SetErr where
  | storageFail
  | encode
deriving DecidableEq

/-- Association-list insert with overwrite semantics (newest binding
shadows older ones, as a key-value store's `insert` overwrites). -/
def insertKV {α : Type} (k : String) (v : α) (db : List (String × α)) :
    List (String × α) :=
  (k, v) :: db

/-- Association-list lookup: the newest binding for `k`. -/
def lookupKV {α : Type} (k : String) : List (String × α) → Option α
  | [] => none
  | p :: rest => if p.1 = k then some p.2 else lookupKV k rest

/-- Remove every binding for `k`. -/
def removeKV {α : Type} (k : String) : List (String × α) → List (String × α)
  | [] => []
  | p :: rest => if p.1 = k then removeKV k rest else p :: removeKV k rest

/-- The record `SledStore::set` / `ReDbStore::set` stores: the MessagePack
encoding of the value serialized in struct-map mode (`with_struct_map`). -/
def mpRecord (v : SerdeValue) : List Nat :=
  encMp (lowerMp v)

/-- The record `SledStore::set_string` / `ReDbStore::set_string` stores:
`rmp_serde::to_vec` of the plain string. -/
def mpStringRecord (s : List Nat) : List Nat :=
  encMp (.str s)

/-- Shared `get` logic of the MessagePack backends (`sled_store.rs` and the
table body of `redb_store.rs`): absent key is `NotFound`; otherwise
`rmp_serde::from_slice::<T>` decodes the record, any decode failure being
the MessagePack decode-error variant. -/
def mpRecordGet (sh : Shape) (entries : List (String × List Nat))
    (k : String) : Except GetErr SerdeValue :=
  match lookupKV k entries with
  | none => .error .notFound
  | some bytes =>
    match decMp bytes.length bytes with
    | none => .error .decode
    | some (m, _) =>
      match coerce sh m with
      | none => .error .decode
      | some v => .ok v

/-- `SledStore::set` (sled_store.rs): serialize with `with_struct_map` and
insert the record under the key. -/
def sledSet (db : List (String × List Nat)) (k : String) (v : SerdeValue) :
    List (String × List Nat) :=
  insertKV k (mpRecord v) db

/-- `SledStore::set_string` (sled_store.rs): `rmp_serde::to_vec` of the
string, inserted under the key. -/
def sledSetString (db : List (String × List Nat)) (k : String)
    (s : List Nat) : List (String × List Nat) :=
  insertKV k (mpStringRecord s) db

/-- `SledStore::get` (sled_store.rs). -/
def sledGet (sh : Shape) (db : List (String × List Nat)) (k : String) :
    Except GetErr SerdeValue :=
  mpRecordGet sh db k

/-- The redb backend's state: `none` models a database whose single table
does not exist (a freshly created database file, or the state after
`clear`'s `delete_table`); `some t` models an existing table `t`. -/
abbrev RedbDb := Option (List (String × List Nat))

/-- A freshly constructed redb store (`Database::create` on a new file):
no table exists yet. -/
def redbFresh : RedbDb := none

/-- `ReDbStore::set` (redb_store.rs): the write transaction's `open_table`
creates the table if missing, then inserts the struct-map record. -/
def redbSet (db : RedbDb) (k : String) (v : SerdeValue) : RedbDb :=
  some (insertKV k (mpRecord v) (db.getD []))

/-- `ReDbStore::set_string` (redb_store.rs). -/
def redbSetString (db : RedbDb) (k : String) (s : List Nat) : RedbDb :=
  some (insertKV k (mpStringRecord s) (db.getD []))

/-- `ReDbStore::get` (redb_store.rs): `begin_read` then `open_table(TABLE)?`
fails with a redb `TableError` when the table does not exist; otherwise
absent keys are `NotFound` and records decode as in the sled backend. -/
def redbGet (sh : Shape) (db : RedbDb) (k : String) :
    Except GetErr SerdeValue :=
  match db with
  | none => .error .tableMissing
  | some t => mpRecordGet sh t k

/-- `ReDbStore::clear` (redb_store.rs): `delete_table(TABLE)` then commit;
afterwards the table no longer exists. -/
def redbClear (_ : RedbDb) : RedbDb :=
  none

/-- `PickleDBStore::set` (pickledb_store.rs): store the value under the key
(pickledb serializes it with legacy bincode, `SerializationMethod::Bin`;
the store keeps the value and `pickleGet` re-derives the bincode record,
which is a function of the value). -/
def pickleSet (db : List (String × SerdeValue)) (k : String)
    (v : SerdeValue) : List (String × SerdeValue) :=
  insertKV k v db

/-- Little-endian byte encoding of `n` on `k` bytes (least significant
first), as legacy bincode's fixint encoding writes integers and lengths. -/
def leBytes : Nat → Nat → List Nat
  | 0, _ => []
  | k+1, n => (n % 256) :: leBytes k (n / 256)

/-- Read `k` little-endian bytes; returns the decoded number and the
remaining input, or `none` if the input is too short. -/
def rdLe : Nat → List Nat → Option (Nat × List Nat)
  | 0, bs => some (0, bs)
  | _+1, [] => none
  | k+1, b :: bs =>
    match rdLe k bs with
    | none => none
    | some (x, r) => some (b + 256 * x, r)

mutual
/-- Legacy bincode encoding (pickledb's `SerializationMethod::Bin`):
fixint little-endian integers, `u64`-length-prefixed strings, booleans as
one byte, and structs as the concatenation of their field encodings in
declaration order — positional, no field names and no self-description.
`SerdeValue.int` abstracts the Rust integer types, modelled here at the
64-bit width (two's complement); narrower Rust integer fields differ only
in field width, on which the exercised claims do not depend. -/
def bincEnc : SerdeValue → List Nat
  | .nil => []
  | .bool b => [if b then 1 else 0]
  | .int n => leBytes 8 ((n % (2 : Int) ^ 64).toNat)
  | .str s => leBytes 8 s.length ++ s
  | .strct fs => bincEncFields fs

/-- Concatenated bincode encodings of struct fields, in order. -/
def bincEncFields : SFields → List Nat
  | .nil => []
  | .cons _ v rest => bincEnc v ++ bincEncFields rest
end

mutual
/-- Legacy `bincode::deserialize` of a requested type from record bytes:
positional reads directed by the requested shape (struct field names come
from the requested type, since the record retains none).  Because the
format is not self-describing, a read at a mismatched type can succeed by
reinterpreting the bytes (e.g. a struct whose first field is a string read
as a plain string) or fail by running out of input; there is no shape
check. -/
def bincDecodeAs : Shape → List Nat → Option (SerdeValue × List Nat)
  | .nil, bs => some (.nil, bs)
  | .bool, bs =>
    match bs with
    | 0 :: r => some (.bool false, r)
    | 1 :: r => some (.bool true, r)
    | _ => none
  | .int, bs =>
    match rdLe 8 bs with
    | none => none
    | some (x, r) => some (.int (sint 64 x), r)
  | .str, bs =>
    match rdLe 8 bs with
    | none => none
    | some (len, r) =>
      if len ≤ r.length then some (.str (r.take len), r.drop len) else none
  | .strct sf, bs =>
    match bincDecFields sf bs with
    | none => none
    | some (fs, r) => some (.strct fs, r)

/-- Positional reads of the requested struct fields, in order. -/
def bincDecFields : ShapeFields → List Nat → Option (SFields × List Nat)
  | .nil, bs => some (.nil, bs)
  | .cons n sh rest, bs =>
    match bincDecodeAs sh bs with
    | none => none
    | some (v, r) =>
      match bincDecFields rest r with
      | none => none
      | some (fs, r2) => some (.cons n v fs, r2)
end

/-- `PickleDBStore::get` (pickledb_store.rs): `self.db.get::<T>(key)`
returns `None` both when the key is absent and when the stored bincode
record does not deserialize as `T`, and the store maps that single `None`
to `GetError::NotFound` via `ok_or`.  Legacy `bincode::deserialize`
tolerates trailing bytes, so a record longer than `T` needs still
succeeds, yielding the reinterpreted value. -/
def pickleGet (sh : Shape) (db : List (String × SerdeValue)) (k : String) :
    Except GetErr SerdeValue :=
  match lookupKV k db with
  | none => .error .notFound
  | some v =>
    match bincDecodeAs sh (bincEnc v) with
    | none => .error .notFound
    | some (w, _) => .ok w

/-- `PickleDb::get_all`: the keys currently in the store. -/
def pickleGetAll (db : List (String × SerdeValue)) : List String :=
  db.map Prod.fst

/-- `PickleDBStore::clear` (pickledb_store.rs): iterate `get_all` and
`rem` each key. -/
def pickleClear (db : List (String × SerdeValue)) :
    List (String × SerdeValue) :=
  List.foldl (fun d key => removeKV key d) db (pickleGetAll db)

/-- Result of a call that may panic instead of returning, modelling a Rust
`.unwrap()` on an `Err`. -/
inductive PanicOr (α : Type) where
  | panicked
  | ok (a : α)
deriving DecidableEq

/-- Minimal JSON string escaping as `serde_json::to_string` performs on the
modelled string bytes (quote and backslash; the modelled universe for the
browser-backend claims contains no control bytes). -/
def jsonEscape : List Nat → List Nat
  | [] => []
  | c :: rest =>
    if c = 0x22 ∨ c = 0x5c then 0x5c :: c :: jsonEscape rest
    else c :: jsonEscape rest

/-- The text `serde_json::to_string` produces for a string value: the
escaped bytes wrapped in double quotes. -/
def jsonEncStr (s : List Nat) : List Nat :=
  0x22 :: (jsonEscape s ++ [0x22])

/-- Parse the body of a JSON string after the opening quote; the closing
quote must end the input (`serde_json::from_str` rejects trailing data). -/
def jsonDecStrAux : List Nat → Option (List Nat)
  | [] => none
  | c :: rest =>
    if c = 0x22 then
      match rest with
      | [] => some []
      | _ :: _ => none
    else if c = 0x5c then
      match rest with
      | d :: rest2 =>
        if d = 0x22 ∨ d = 0x5c then (jsonDecStrAux rest2).map (fun s => d :: s)
        else none
      | [] => none
    else if 0x20 ≤ c then (jsonDecStrAux rest).map (fun s => c :: s)
    else none

/-- `serde_json::from_str::<String>` on the stored text: the text must be a
complete JSON string literal. -/
def jsonDecStr : List Nat → Option (List Nat)
  | [] => none
  | c :: rest => if c = 0x22 then jsonDecStrAux rest else none

/-- `LocalStorageStore::set_string` (local_storage_store.rs line 38): the
raw text is stored under the key, with no JSON encoding. -/
def lsSetString (st : List (String × List Nat)) (k : String) (s : List Nat) :
    List (String × List Nat) :=
  insertKV k s st

/-- `LocalStorageStore::set` specialized to a string value
(local_storage_store.rs line 52): `serde_json::to_string` of the value is
stored under the key. -/
def lsSetStringValue (st : List (String × List Nat)) (k : String)
    (s : List Nat) : List (String × List Nat) :=
  insertKV k (jsonEncStr s) st

/-- `LocalStorageStore::get::<String>` (local_storage_store.rs lines
44-50): an absent key is `NotFound`; a present record is parsed with
`serde_json::from_str` and the result is `.unwrap()`ed (line 48), so a
record that does not parse as the requested type panics instead of
returning an error. -/
def lsGetString (st : List (String × List Nat)) (k : String) :
    PanicOr (Except GetErr (List Nat)) :=
  match lookupKV k st with
  | none => .ok (.error .notFound)
  | some t =>
    match jsonDecStr t with
    | none => .panicked
    | some s => .ok (.ok s)

/-- Modelled from the spec: `PkvStore::remove_and_get` (lib.rs lines
145-150) delegates to the backend's `StoreImpl::remove_and_get`, but no
backend under `src/` implements that trait method; following spec section
4.1, it removes the record for the key and returns its decoded value if it
existed, or `Ok(None)` — not an error — if it did not. -/
def removeAndGet (sh : Shape) (db : List (String × List Nat)) (k : String) :
    Except GetErr (Option SerdeValue) × List (String × List Nat) :=
  match lookupKV k db with
  | none => (.ok none, db)
  | some bytes =>
    match decMp bytes.length bytes with
    | none => (.error .decode, removeKV k db)
    | some (m, _) =>
      match coerce sh m with
      | none => (.error .decode, removeKV k db)
      | some v => (.ok (some v), removeKV k db)

/-- A sled-model store with an injectable fault schedule, so that the
fallibility of `PkvStore::set` (an engine I/O failure) is representable:
each `set` consumes the head of `faults`, failing when it is `true`. -/
structure FSled where
  entries : List (String × List Nat)
  faults : List Bool

/-- `PkvStore::set` over the fault-schedule store: a scheduled fault makes
the write fail with an I/O error and leaves the entries unchanged;
otherwise the struct-map record is inserted. -/
def fsledSet (s : FSled) (k : String) (v : SerdeValue) :
    Except SetErr Unit × FSled :=
  match s.faults with
  | [] => (.ok (), ⟨insertKV k (mpRecord v) s.entries, []⟩)
  | true :: rest => (.error .storageFail, ⟨s.entries, rest⟩)
  | false :: rest => (.ok (), ⟨insertKV k (mpRecord v) s.entries, rest⟩)

/-- The `save_resource` system (persistent_resource.rs lines 140-148): set
the current value under the type-name key; on `Err(e)` report the failure
to the diagnostic channel (`eprintln!`) and return normally. -/
def saveResource (s : FSled) (k : String) (v : SerdeValue) :
    FSled × Option String :=
  match fsledSet s k v with
  | (.ok _, s2) => (s2, none)
  | (.error _, s2) => (s2, some "Failed to persist resource")

/-- `PersistentResourcePlugin::build` (persistent_resource.rs lines
125-137): `pkv.get::<T>(key).unwrap_or_else(|_| factory())` — on any get
error the caller-supplied factory produces the loaded value — then the
resource is inserted and the save system registered; the store itself is
not written.  Returns the loaded value and the (unchanged) store. -/
def pluginBuild (db : RedbDb) (k : String) (sh : Shape)
    (factory : Unit → SerdeValue) : SerdeValue × RedbDb :=
  (match redbGet sh db k with
   | .ok v => v
   | .error _ => factory (), db)

/-- The `User { name: "alice", age: 32 }` value used by the repo's tests
(field names and string content as UTF-8 bytes). -/
def userV : SerdeValue :=
  .strct (.cons [110, 97, 109, 101] (.str [97, 108, 105, 99, 101])
    (.cons [97, 103, 101] (.int 32) .nil))

theorem pow256_2 : (256 : Nat) ^ 2 = 65536 := by norm_num

theorem pow256_4 : (256 : Nat) ^ 4 = 4294967296 := by norm_num

theorem pow256_8 : (256 : Nat) ^ 8 = 18446744073709551616 := by norm_num

theorem rdBe_beBytes_mod :
    ∀ (k acc n : Nat) (rest : List Nat),
      rdBe k acc (beBytes k n ++ rest) =
        some (acc * 256 ^ k + n % 256 ^ k, rest) := by
  intro k
  induction k with
  | zero => intro acc n rest; simp [rdBe, beBytes, Nat.mod_one]
  | succ k ih =>
    intro acc n rest
    rw [beBytes, List.cons_append, rdBe, ih]
    have hmod : n % 256 ^ (k + 1) = n % 256 ^ k + 256 ^ k * (n / 256 ^ k % 256) := by
      rw [pow_succ]
      exact Nat.mod_mul
    rw [hmod]
    ring_nf

theorem rdBe0_beBytes (k n : Nat) (h : n < 256 ^ k) (rest : List Nat) :
    rdBe k 0 (beBytes k n ++ rest) = some (n, rest) := by
  rw [rdBe_beBytes_mod, Nat.mod_eq_of_lt h, Nat.zero_mul, Nat.zero_add]

theorem decHead_encInt (n : Int) (h1 : -(2 : Int) ^ 63 ≤ n) (h2 : n < 2 ^ 64)
    (rest : List Nat) :
    decHead (encInt n ++ rest) = some (.val (.int n), rest) := by
  by_cases h0 : 0 ≤ n
  · have hm : ((n.toNat : Int)) = n := Int.toNat_of_nonneg h0
    have hm64 : n.toNat < 18446744073709551616 := by omega
    by_cases hA : n.toNat < 0x80
    · have he : encInt n = [n.toNat] := by simp [encInt, h0, hA]
      rw [he, List.cons_append, List.nil_append]
      simp [decHead, hA, hm]
    · by_cases hB : n.toNat < 0x100
      · have he : encInt n = [0xcc, n.toNat] := by simp [encInt, h0, hA, hB]
        rw [he]
        simp [decHead, hm]
      · by_cases hC : n.toNat < 0x10000
        · have he : encInt n = 0xcd :: beBytes 2 n.toNat := by
            simp [encInt, h0, hA, hB, hC]
          rw [he, List.cons_append]
          simp only [decHead]
          norm_num
          rw [rdBe0_beBytes 2 n.toNat (by rw [pow256_2]; omega) rest]
          simp [hm]
        · by_cases hD : n.toNat < 0x100000000
          · have he : encInt n = 0xce :: beBytes 4 n.toNat := by
              simp [encInt, h0, hA, hB, hC, hD]
            rw [he, List.cons_append]
            simp only [decHead]
            norm_num
            rw [rdBe0_beBytes 4 n.toNat (by rw [pow256_4]; omega) rest]
            simp [hm]
          · have he : encInt n = 0xcf :: beBytes 8 n.toNat := by
              simp [encInt, h0, hA, hB, hC, hD]
            rw [he, List.cons_append]
            simp only [decHead]
            norm_num
            rw [rdBe0_beBytes 8 n.toNat (by rw [pow256_8]; omega) rest]
            simp [hm]
  · have hneg : n < 0 := by omega
    have hm : (((-n).toNat : Int)) = -n := Int.toNat_of_nonneg (by omega)
    have hm63 : (-n).toNat ≤ 9223372036854775808 := by omega
    have hm1 : 1 ≤ (-n).toNat := by omega
    by_cases hA : (-n).toNat ≤ 0x20
    · have he : encInt n = [0x100 - (-n).toNat] := by simp [encInt, h0, hA]
      rw [he, List.cons_append, List.nil_append]
      have c1 : ¬ (0x100 - (-n).toNat < 0x80) := by omega
      have c2 : 0xe0 ≤ 0x100 - (-n).toNat ∧ 0x100 - (-n).toNat ≤ 0xff := by omega
      simp only [decHead, c1, if_false, c2, if_true, and_self, if_pos]
      have : ((0x100 - (-n).toNat : Nat) : Int) - 0x100 = n := by omega
      rw [this]
    · by_cases hB : (-n).toNat ≤ 0x80
      · have he : encInt n = [0xd0, 0x100 - (-n).toNat] := by simp [encInt, h0, hA, hB]
        rw [he]
        simp only [decHead]
        norm_num
        have hs : sint 8 (0x100 - (-n).toNat) = n := by
          unfold sint
          have : ¬ (0x100 - (-n).toNat < 2 ^ (8 - 1)) := by norm_num; omega
          rw [if_neg this]
          push_cast
          omega
        rw [hs]
      · by_cases hC : (-n).toNat ≤ 0x8000
        · have he : encInt n = 0xd1 :: beBytes 2 (0x10000 - (-n).toNat) := by
            simp [encInt, h0, hA, hB, hC]
          rw [he, List.cons_append]
          simp only [decHead]
          norm_num
          rw [rdBe0_beBytes 2 (0x10000 - (-n).toNat) (by rw [pow256_2]; omega) rest]
          have hs : sint 16 (0x10000 - (-n).toNat) = n := by
            unfold sint
            have : ¬ (0x10000 - (-n).toNat < 2 ^ (16 - 1)) := by norm_num; omega
            rw [if_neg this]
            push_cast
            omega
          simp [hs]
        · by_cases hD : (-n).toNat ≤ 0x80000000
          · have he : encInt n = 0xd2 :: beBytes 4 (0x100000000 - (-n).toNat) := by
              simp [encInt, h0, hA, hB, hC, hD]
            rw [he, List.cons_append]
            simp only [decHead]
            norm_num
            rw [rdBe0_beBytes 4 (0x100000000 - (-n).toNat) (by rw [pow256_4]; omega) rest]
            have hs : sint 32 (0x100000000 - (-n).toNat) = n := by
              unfold sint
              have : ¬ (0x100000000 - (-n).toNat < 2 ^ (32 - 1)) := by norm_num; omega
              rw [if_neg this]
              push_cast
              omega
            simp [hs]
          · have he : encInt n =
                0xd3 :: beBytes 8 (0x10000000000000000 - (-n).toNat) := by
              simp [encInt, h0, hA, hB, hC, hD]
            rw [he, List.cons_append]
            simp only [decHead]
            norm_num
            rw [rdBe0_beBytes 8 (0x10000000000000000 - (-n).toNat)
              (by rw [pow256_8]; omega) rest]
            have hs : sint 64 (0x10000000000000000 - (-n).toNat) = n := by
              unfold sint
              have : ¬ (0x10000000000000000 - (-n).toNat < 2 ^ (64 - 1)) := by
                norm_num; omega
              rw [if_neg this]
              push_cast
              omega
            simp [hs]

theorem readStr_exact (s rest : List Nat) :
    readStr s.length (s ++ rest) = some (.val (.str s), rest) := by
  unfold readStr
  rw [if_pos (by simp), List.take_left, List.drop_left]

theorem decHead_encStr (s : List Nat) (h : s.length < 2 ^ 32) (rest : List Nat) :
    decHead ((strHeader s.length ++ s) ++ rest) = some (.val (.str s), rest) := by
  have h32 : s.length < 4294967296 := by
    have : (2 : Nat) ^ 32 = 4294967296 := by norm_num
    omega
  unfold strHeader
  by_cases hA : s.length < 32
  · rw [if_pos hA, List.cons_append, List.nil_append, List.cons_append]
    have c1 : ¬ (0xa0 + s.length < 0x80) := by omega
    have c2 : ¬ (0xe0 ≤ 0xa0 + s.length ∧ 0xa0 + s.length ≤ 0xff) := by omega
    have c3 : ¬ (0xa0 + s.length < 0x90) := by omega
    have c4 : ¬ (0xa0 + s.length < 0xa0) := by omega
    have c5 : 0xa0 + s.length < 0xc0 := by omega
    simp only [decHead]
    rw [if_neg c1, if_neg c2, if_neg c3, if_neg c4, if_pos c5]
    have c6 : 0xa0 + s.length - 0xa0 = s.length := by omega
    rw [c6, readStr_exact]
  · rw [if_neg hA]
    by_cases hB : s.length < 0x100
    · rw [if_pos hB]
      simp only [List.cons_append, List.nil_append, decHead]
      norm_num
      exact readStr_exact s rest
    · rw [if_neg hB]
      by_cases hC : s.length < 0x10000
      · rw [if_pos hC]
        simp only [List.cons_append, List.append_assoc, decHead]
        norm_num
        rw [rdBe0_beBytes 2 s.length (by rw [pow256_2]; omega) (s ++ rest)]
        exact readStr_exact s rest
      · rw [if_neg hC]
        simp only [List.cons_append, List.append_assoc]
        simp only [decHead]
        norm_num
        rw [rdBe0_beBytes 4 s.length (by rw [pow256_4]; omega) (s ++ rest)]
        exact readStr_exact s rest

theorem decHead_arrHeader (n : Nat) (h : n < 2 ^ 32) (rest : List Nat) :
    decHead (arrHeader n ++ rest) = some (.arrH n, rest) := by
  have h32 : n < 4294967296 := by
    have : (2 : Nat) ^ 32 = 4294967296 := by norm_num
    omega
  unfold arrHeader
  by_cases hA : n < 16
  · rw [if_pos hA, List.cons_append, List.nil_append]
    have c1 : ¬ (0x90 + n < 0x80) := by omega
    have c2 : ¬ (0xe0 ≤ 0x90 + n ∧ 0x90 + n ≤ 0xff) := by omega
    have c3 : ¬ (0x90 + n < 0x90) := by omega
    have c4 : 0x90 + n < 0xa0 := by omega
    simp only [decHead]
    rw [if_neg c1, if_neg c2, if_neg c3, if_pos c4]
    have c5 : 0x90 + n - 0x90 = n := by omega
    rw [c5]
  · rw [if_neg hA]
    by_cases hB : n < 0x10000
    · rw [if_pos hB, List.cons_append]
      simp only [decHead]
      norm_num
      rw [rdBe0_beBytes 2 n (by rw [pow256_2]; omega) rest]
    · rw [if_neg hB, List.cons_append]
      simp only [decHead]
      norm_num
      rw [rdBe0_beBytes 4 n (by rw [pow256_4]; omega) rest]

theorem decHead_mapHeader (n : Nat) (h : n < 2 ^ 32) (rest : List Nat) :
    decHead (mapHeader n ++ rest) = some (.mapH n, rest) := by
  have h32 : n < 4294967296 := by
    have : (2 : Nat) ^ 32 = 4294967296 := by norm_num
    omega
  unfold mapHeader
  by_cases hA : n < 16
  · rw [if_pos hA, List.cons_append, List.nil_append]
    have c1 : ¬ (0x80 + n < 0x80) := by omega
    have c2 : ¬ (0xe0 ≤ 0x80 + n ∧ 0x80 + n ≤ 0xff) := by omega
    have c3 : 0x80 + n < 0x90 := by omega
    simp only [decHead]
    rw [if_neg c1, if_neg c2, if_pos c3]
    have c4 : 0x80 + n - 0x80 = n := by omega
    rw [c4]
  · rw [if_neg hA]
    by_cases hB : n < 0x10000
    · rw [if_pos hB, List.cons_append]
      simp only [decHead]
      norm_num
      rw [rdBe0_beBytes 2 n (by rw [pow256_2]; omega) rest]
    · rw [if_neg hB, List.cons_append]
      simp only [decHead]
      norm_num
      rw [rdBe0_beBytes 4 n (by rw [pow256_4]; omega) rest]

theorem encInt_length_pos (n : Int) : 1 ≤ (encInt n).length := by
  unfold encInt
  split_ifs <;> simp [beBytes]

theorem strHeader_length_pos (len : Nat) : 1 ≤ (strHeader len).length := by
  unfold strHeader
  split_ifs <;> simp [beBytes]

theorem arrHeader_length_pos (n : Nat) : 1 ≤ (arrHeader n).length := by
  unfold arrHeader
  split_ifs <;> simp [beBytes]

theorem mapHeader_length_pos (n : Nat) : 1 ≤ (mapHeader n).length := by
  unfold mapHeader
  split_ifs <;> simp [beBytes]

theorem encMp_length_pos : ∀ m : MpValue, 1 ≤ (encMp m).length := by
  intro m
  cases m with
  | nil => simp [encMp]
  | bool b => cases b <;> simp [encMp]
  | int n => simpa [encMp] using encInt_length_pos n
  | str s =>
    have := strHeader_length_pos s.length
    simp only [encMp, List.length_append]
    omega
  | arr vs =>
    have := arrHeader_length_pos (mpLen vs)
    simp only [encMp, List.length_append]
    omega
  | map kvs =>
    have := mapHeader_length_pos (mpPairsLen kvs)
    simp only [encMp, List.length_append]
    omega

theorem parseN_enc (fuel : Nat)
    (ih : ∀ m : MpValue, wfM m = true → (encMp m).length ≤ fuel →
      ∀ rest, decMp fuel (encMp m ++ rest) = some (m, rest)) :
    ∀ (vs : MpList) (rest : List Nat), wfL vs = true →
      (encList vs).length ≤ fuel →
      parseN (fun x => decMp fuel x) (mpLen vs) (encList vs ++ rest) =
        some (vs, rest)
  | .nil, rest, _, _ => by simp [parseN, mpLen, encList]
  | .cons v vs, rest, hwf, hlen => by
    have hw : wfM v = true ∧ wfL vs = true := by
      simpa [wfL, Bool.and_eq_true] using hwf
    have hl : (encMp v).length + (encList vs).length ≤ fuel := by
      simpa [encList, List.length_append] using hlen
    have hv : decMp fuel (encMp v ++ (encList vs ++ rest)) =
        some (v, encList vs ++ rest) := ih v hw.1 (by omega) _
    have hrec : parseN (fun x => decMp fuel x) (mpLen vs)
        (encList vs ++ rest) = some (vs, rest) :=
      parseN_enc fuel ih vs rest hw.2 (by omega)
    simp only [mpLen, encList, List.append_assoc, parseN, hv, hrec]

theorem parsePairsN_enc (fuel : Nat)
    (ih : ∀ m : MpValue, wfM m = true → (encMp m).length ≤ fuel →
      ∀ rest, decMp fuel (encMp m ++ rest) = some (m, rest)) :
    ∀ (kvs : MpPairs) (rest : List Nat), wfP kvs = true →
      (encPairs kvs).length ≤ fuel →
      parsePairsN (fun x => decMp fuel x) (mpPairsLen kvs)
        (encPairs kvs ++ rest) = some (kvs, rest)
  | .nil, rest, _, _ => by simp [parsePairsN, mpPairsLen, encPairs]
  | .cons k v kvs, rest, hwf, hlen => by
    have hw : wfM k = true ∧ wfM v = true ∧ wfP kvs = true := by
      simpa [wfP, Bool.and_eq_true, and_assoc] using hwf
    have hl : (encMp k).length + ((encMp v).length + (encPairs kvs).length) ≤
        fuel := by
      simpa [encPairs, List.length_append] using hlen
    have hk : decMp fuel (encMp k ++ (encMp v ++ (encPairs kvs ++ rest))) =
        some (k, encMp v ++ (encPairs kvs ++ rest)) := ih k hw.1 (by omega) _
    have hv : decMp fuel (encMp v ++ (encPairs kvs ++ rest)) =
        some (v, encPairs kvs ++ rest) := ih v hw.2.1 (by omega) _
    have hrec : parsePairsN (fun x => decMp fuel x) (mpPairsLen kvs)
        (encPairs kvs ++ rest) = some (kvs, rest) :=
      parsePairsN_enc fuel ih kvs rest hw.2.2 (by omega)
    simp only [mpPairsLen, encPairs, List.append_assoc, parsePairsN, hk, hv,
      hrec]

theorem decMp_enc :
    ∀ (fuel : Nat) (m : MpValue), wfM m = true → (encMp m).length ≤ fuel →
      ∀ rest, decMp fuel (encMp m ++ rest) = some (m, rest) := by
  intro fuel
  induction fuel with
  | zero =>
    intro m _ hlen
    have := encMp_length_pos m
    omega
  | succ fuel ih =>
    intro m hwf hlen rest
    cases m with
    | nil => simp [encMp, decMp, decHead]
    | bool b => cases b <;> simp [encMp, decMp, decHead]
    | int n =>
      have h1 : -(2 : Int) ^ 63 ≤ n ∧ n < 2 ^ 64 := by
        simpa [wfM, Bool.and_eq_true, decide_eq_true_eq] using hwf
      simp only [encMp, decMp]
      rw [decHead_encInt n h1.1 h1.2 rest]
    | str s =>
      have hs : s.length < 2 ^ 32 := by
        have h1 := hwf
        simp only [wfM, Bool.and_eq_true, decide_eq_true_eq] at h1
        exact h1.1
      simp only [encMp, decMp]
      rw [decHead_encStr s hs rest]
    | arr vs =>
      have h1 : mpLen vs < 2 ^ 32 ∧ wfL vs = true := by
        simpa [wfM, Bool.and_eq_true, decide_eq_true_eq] using hwf
      have hlen2 : (encList vs).length ≤ fuel := by
        have hhdr := arrHeader_length_pos (mpLen vs)
        simp only [encMp, List.length_append] at hlen
        omega
      have hp := parseN_enc fuel ih vs rest h1.2 hlen2
      simp only [encMp, List.append_assoc, decMp]
      rw [decHead_arrHeader (mpLen vs) h1.1 (encList vs ++ rest)]
      simp only [hp]
    | map kvs =>
      have h1 : mpPairsLen kvs < 2 ^ 32 ∧ wfP kvs = true := by
        simpa [wfM, Bool.and_eq_true, decide_eq_true_eq] using hwf
      have hlen2 : (encPairs kvs).length ≤ fuel := by
        have hhdr := mapHeader_length_pos (mpPairsLen kvs)
        simp only [encMp, List.length_append] at hlen
        omega
      have hp := parsePairsN_enc fuel ih kvs rest h1.2 hlen2
      simp only [encMp, List.append_assoc, decMp]
      rw [decHead_mapHeader (mpPairsLen kvs) h1.1 (encPairs kvs ++ rest)]
      simp only [hp]

theorem mpPairsLen_lowerFields : ∀ fs : SFields,
    mpPairsLen (lowerFields fs) = sfLen fs
  | .nil => rfl
  | .cons n v rest => by
    simp [lowerFields, mpPairsLen, sfLen, mpPairsLen_lowerFields rest]

mutual
theorem wfM_lowerMp : ∀ v : SerdeValue, wfS v = true → wfM (lowerMp v) = true
  | .nil, _ => rfl
  | .bool b, _ => rfl
  | .int n, h => by simpa [lowerMp, wfM, wfS] using h
  | .str s, h => by simpa [lowerMp, wfM, wfS] using h
  | .strct fs, h => by
    have h2 : sfLen fs < 2 ^ 32 ∧ wfSFields fs = true := by
      simpa [wfS, Bool.and_eq_true, decide_eq_true_eq] using h
    have h3 := wfP_lowerFields fs h2.2
    have h21 : sfLen fs < 4294967296 := by simpa using h2.1
    simp [lowerMp, wfM, Bool.and_eq_true, decide_eq_true_eq,
      mpPairsLen_lowerFields, h21, h3]

theorem wfP_lowerFields : ∀ fs : SFields, wfSFields fs = true →
    wfP (lowerFields fs) = true
  | .nil, _ => rfl
  | .cons n v rest, h => by
    obtain ⟨⟨⟨hn, _⟩, hv⟩, hr⟩ :
        ((nameOk n = true ∧ (!hasName n rest) = true) ∧ wfS v = true) ∧
          wfSFields rest = true := by
      simpa [wfSFields, Bool.and_eq_true] using h
    obtain ⟨hn1, hn2⟩ : n.length < 2 ^ 32 ∧
        n.all (fun b => decide (b < 128)) = true := by
      simpa [nameOk, Bool.and_eq_true, decide_eq_true_eq] using hn
    have h256 : n.all (fun b => decide (b < 256)) = true := by
      simp only [List.all_eq_true, decide_eq_true_eq] at hn2 ⊢
      intro b hb
      have := hn2 b hb
      omega
    have h3 := wfM_lowerMp v hv
    have h4 := wfP_lowerFields rest hr
    have hn1b : n.length < 4294967296 := by simpa using hn1
    simp [lowerFields, wfP, wfM, Bool.and_eq_true, decide_eq_true_eq, hn1b,
      h256, h3, h4]
end

theorem hasName_of_fieldMem {n : List Nat} {v : SerdeValue} {fs : SFields}
    (h : FieldMem n v fs) : hasName n fs = true := by
  induction h with
  | head rest => simp [hasName]
  | tail m w rest hmem ih => simp [hasName, ih]

theorem lookupPairs_lowerFields : ∀ (fs : SFields), wfSFields fs = true →
    ∀ (n : List Nat) (v : SerdeValue), FieldMem n v fs →
      lookupPairs n (lowerFields fs) = some (lowerMp v)
  | .nil, _, n, v, hmem => by cases hmem
  | .cons m w rest, h, n, v, hmem => by
    obtain ⟨⟨⟨_, hh⟩, _⟩, hr⟩ :
        ((nameOk m = true ∧ (!hasName m rest) = true) ∧ wfS w = true) ∧
          wfSFields rest = true := by
      simpa [wfSFields, Bool.and_eq_true] using h
    cases hmem with
    | head _ => simp [lowerFields, lookupPairs]
    | tail _ _ _ hmem2 =>
      have hne : m ≠ n := by
        intro he
        rw [he] at hh
        rw [hasName_of_fieldMem hmem2] at hh
        simp at hh
      have h2 := lookupPairs_lowerFields rest hr n v hmem2
      simp [lowerFields, lookupPairs, hne, h2]

mutual
theorem coerce_shapeOf_lower : ∀ v : SerdeValue, wfS v = true →
    coerce (shapeOf v) (lowerMp v) = some v
  | .nil, _ => rfl
  | .bool b, _ => rfl
  | .int n, _ => rfl
  | .str s, _ => rfl
  | .strct fs, h => by
    have h2 : sfLen fs < 2 ^ 32 ∧ wfSFields fs = true := by
      simpa [wfS, Bool.and_eq_true, decide_eq_true_eq] using h
    have hcf := coerceFields_lower fs (lowerFields fs) h2.2
      (fun n v hm => lookupPairs_lowerFields fs h2.2 n v hm)
    simp [shapeOf, lowerMp, coerce, hcf]

theorem coerceFields_lower : ∀ (fs : SFields) (kvs : MpPairs),
    wfSFields fs = true →
    (∀ n v, FieldMem n v fs → lookupPairs n kvs = some (lowerMp v)) →
    coerceFields (shapeOfFields fs) kvs = some fs
  | .nil, kvs, _, _ => rfl
  | .cons n v rest, kvs, h, hlook => by
    obtain ⟨⟨⟨_, _⟩, hv⟩, hr⟩ :
        ((nameOk n = true ∧ (!hasName n rest) = true) ∧ wfS v = true) ∧
          wfSFields rest = true := by
      simpa [wfSFields, Bool.and_eq_true] using h
    have h1 : lookupPairs n kvs = some (lowerMp v) := hlook n v (.head n v rest)
    have h2 : coerce (shapeOf v) (lowerMp v) = some v :=
      coerce_shapeOf_lower v hv
    have h3 : coerceFields (shapeOfFields rest) kvs = some rest :=
      coerceFields_lower rest kvs hr
        (fun n2 v2 hm => hlook n2 v2 (.tail n2 v2 n v rest hm))
    simp [shapeOfFields, coerceFields, h1, h2, h3]
end

theorem lookupKV_insertKV {α : Type} (k : String) (v : α)
    (db : List (String × α)) : lookupKV k (insertKV k v db) = some v := by
  simp [insertKV, lookupKV]

theorem lookupKV_removeKV_same {α : Type} (k : String) :
    ∀ db : List (String × α), lookupKV k (removeKV k db) = none := by
  intro db
  induction db with
  | nil => simp [removeKV, lookupKV]
  | cons p rest ih =>
    by_cases h : p.1 = k
    · simp [removeKV, h, ih]
    · simp [removeKV, lookupKV, h, ih]

theorem lookupKV_removeKV_ne {α : Type} {k k2 : String} (h : k2 ≠ k) :
    ∀ db : List (String × α), lookupKV k (removeKV k2 db) = lookupKV k db := by
  intro db
  induction db with
  | nil => simp [removeKV]
  | cons p rest ih =>
    by_cases h1 : p.1 = k2
    · have h2 : ¬ p.1 = k := by rw [h1]; exact h
      simp [removeKV, lookupKV, h1, h2, h, ih]
    · simp [removeKV, lookupKV, h1, ih]

theorem lookupKV_foldl_removeKV {α : Type} (k : String) :
    ∀ (ks : List String) (d : List (String × α)),
      lookupKV k (List.foldl (fun d key => removeKV key d) d ks) =
        if k ∈ ks then none else lookupKV k d := by
  intro ks
  induction ks with
  | nil => intro d; simp
  | cons k0 ks ih =>
    intro d
    rw [List.foldl_cons, ih]
    by_cases h1 : k ∈ ks
    · simp [h1, List.mem_cons]
    · by_cases h2 : k = k0
      · rw [h2]
        simp [h1, List.mem_cons, lookupKV_removeKV_same, h2]
      · have h3 : k0 ≠ k := fun he => h2 he.symm
        simp [h1, h2, List.mem_cons, lookupKV_removeKV_ne h3]

theorem lookupKV_none_of_not_mem_keys {α : Type} (k : String) :
    ∀ db : List (String × α), k ∉ db.map Prod.fst → lookupKV k db = none := by
  intro db
  induction db with
  | nil => intro _; rfl
  | cons p rest ih =>
    intro h
    simp only [List.map_cons, List.mem_cons] at h
    push_neg at h
    have h1 : ¬ p.1 = k := fun he => h.1 he.symm
    simp [lookupKV, h1, ih h.2]

theorem pickleClear_lookup (k : String) (db : List (String × SerdeValue)) :
    lookupKV k (pickleClear db) = none := by
  unfold pickleClear pickleGetAll
  rw [lookupKV_foldl_removeKV]
  by_cases h : k ∈ db.map Prod.fst
  · simp [h]
  · simp [h, lookupKV_none_of_not_mem_keys k db h]

theorem mpRecordGet_insert (db : List (String × List Nat)) (k : String)
    (v : SerdeValue) (hwf : wfS v = true) :
    mpRecordGet (shapeOf v) (insertKV k (mpRecord v) db) k = .ok v := by
  have hd : decMp (mpRecord v).length (mpRecord v) = some (lowerMp v, []) := by
    have h2 := decMp_enc (mpRecord v).length (lowerMp v) (wfM_lowerMp v hwf)
      (le_refl _) []
    simpa [mpRecord] using h2
  simp only [mpRecordGet, lookupKV_insertKV, hd, coerce_shapeOf_lower v hwf]

theorem fieldName_infix_encPairs (fs : SFields) (n : List Nat)
    (v : SerdeValue) (h : FieldMem n v fs) :
    n <:+: encPairs (lowerFields fs) := by
  induction h with
  | head rest =>
    refine ⟨strHeader n.length, encMp (lowerMp v) ++ encPairs (lowerFields rest), ?_⟩
    simp [lowerFields, encPairs, encMp]
  | tail m w rest hmem ih =>
    obtain ⟨s1, t1, hst⟩ := ih
    refine ⟨encMp (.str m) ++ encMp (lowerMp w) ++ s1, t1, ?_⟩
    simp only [lowerFields, encPairs, ← hst, List.append_assoc]

/-- C1: round-trip — for every representable value `v` and key `k`,
`get::<T>(k)` after a successful `set(k, v)` (with `T` the type of `v`)
returns `Ok` of a value equal to `v`, on both the sled backend
(`sled_store.rs` set/get) and the redb backend (`redb_store.rs` set/get);
equivalently, the MessagePack codec satisfies `decode(encode(v)) = v` for
every representable `v`. -/
theorem C1_set_then_get_roundtrip (dbS : List (String × List Nat))
    (dbR : RedbDb) (k : String) (v : SerdeValue) (h : wfS v = true) :
    sledGet (shapeOf v) (sledSet dbS k v) k = .ok v ∧
    redbGet (shapeOf v) (redbSet dbR k v) k = .ok v ∧
    decMp (mpRecord v).length (mpRecord v) = some (lowerMp v, []) := by
  refine ⟨?_, ?_, ?_⟩
  · simpa [sledGet, sledSet] using mpRecordGet_insert dbS k v h
  · simp only [redbGet, redbSet]
    exact mpRecordGet_insert (dbR.getD []) k v h
  · have h2 := decMp_enc (mpRecord v).length (lowerMp v) (wfM_lowerMp v h)
      (le_refl _) []
    simpa [mpRecord] using h2

/-- C1 witness: the round trip evaluated on the concrete
`User { name: "alice", age: 32 }` value of the repo's tests. -/
theorem C1_witness :
    wfS userV = true ∧
    sledGet (shapeOf userV) (sledSet [] "user" userV) "user" = .ok userV :=
  ⟨by decide, (C1_set_then_get_roundtrip [] redbFresh "user" userV (by decide)).1⟩

/-- C2 (code bug): on the browser local-storage backend a present record
that does not decode as the requested type makes `get` panic via the
`.unwrap()` at local_storage_store.rs line 48 — the raw text "goodbye"
stored by `set_string("hello", "goodbye")` (the repo's own `set_string`
test scenario) is not valid JSON for `String` — instead of returning a
decode-error variant (the wasm `GetError` has no decode variant at all).
The sled backend, by contrast, does return its MessagePack decode-error
variant on a shape mismatch. -/
theorem C2_browser_get_panics :
    lsGetString (lsSetString [] "hello" [103, 111, 111, 100, 98, 121, 101])
      "hello" = .panicked ∧
    sledGet .bool (sledSetString [] "hello"
      [103, 111, 111, 100, 98, 121, 101]) "hello" = .error .decode :=
  ⟨by decide, by decide⟩

/-- C3 counterexample: on the browser local-storage backend, `set_string`
stores the raw text while `set` of the same `String` value stores its JSON
encoding, so the two records are not byte-for-byte identical — refuting
the claim for that backend. -/
theorem C3_counterexample :
    lsSetString [] "hello" [103, 111, 111, 100, 98, 121, 101] ≠
      lsSetStringValue [] "hello" [103, 111, 111, 100, 98, 121, 101] := by
  decide

/-- C3 amended: on the MessagePack backends (sled and redb) and for the
trait's default implementation, `set_string(k, s)` produces a record
byte-for-byte identical to `set(k, &s.to_string())`, and `get::<String>`
after `set_string` returns `Ok(s)`; on the browser backend the records
differ (see the counterexample). -/
theorem C3_amended (dbS : List (String × List Nat)) (dbR : RedbDb)
    (k : String) (s : List Nat) (h : wfS (.str s) = true) :
    sledSetString dbS k s = sledSet dbS k (.str s) ∧
    redbSetString dbR k s = redbSet dbR k (.str s) ∧
    sledGet .str (sledSetString dbS k s) k = .ok (.str s) := by
  refine ⟨rfl, rfl, ?_⟩
  have h2 := mpRecordGet_insert dbS k (.str s) h
  simpa [sledGet, sledSetString, mpStringRecord, mpRecord, lowerMp, shapeOf,
    sledSet] using h2

/-- C3 amended witness: evaluated on the string "goodbye" of the repo's
`set_string` test. -/
theorem C3_witness :
    wfS (.str [103, 111, 111, 100, 98, 121, 101]) = true ∧
    sledGet .str (sledSetString [] "hello"
      [103, 111, 111, 100, 98, 121, 101]) "hello" =
      .ok (.str [103, 111, 111, 100, 98, 121, 101]) :=
  ⟨by decide, (C3_amended [] redbFresh "hello"
    [103, 111, 111, 100, 98, 121, 101] (by decide)).2.2⟩

/-- C4 counterexample: the sled backend's `set` serializes with
`with_struct_map`, so the stored record for a struct retains its field
names — the bytes of the field name "name" appear verbatim in the record
sled's `set` stores for `User { name: "alice", age: 32 }`, refuting
"no field names retained". -/
theorem C4_counterexample :
    lookupKV "user" (sledSet [] "user" userV) = some (mpRecord userV) ∧
    [110, 97, 109, 101] <:+: mpRecord userV :=
  ⟨by decide, by decide⟩

/-- C4 amended: the sled backend's `set` serializes struct values in
MessagePack map-of-fields mode (`with_struct_map`), so every field name of
the struct appears verbatim in the stored record. -/
theorem C4_amended (fs : SFields) (n : List Nat) (v : SerdeValue)
    (h : FieldMem n v fs) : n <:+: mpRecord (.strct fs) := by
  obtain ⟨s1, t1, hst⟩ := fieldName_infix_encPairs fs n v h
  refine ⟨mapHeader (mpPairsLen (lowerFields fs)) ++ s1, t1, ?_⟩
  simp only [mpRecord, lowerMp, encMp, ← hst, List.append_assoc]

/-- C4 amended witness: the field "name" of the test `User` struct. -/
theorem C4_witness : [110, 97, 109, 101] <:+: mpRecord userV :=
  C4_amended
    (.cons [110, 97, 109, 101] (.str [97, 108, 105, 99, 101])
      (.cons [97, 103, 101] (.int 32) .nil))
    [110, 97, 109, 101] (.str [97, 108, 105, 99, 101])
    (.head _ _ _)

/-- C5 counterexample: on the redb backend, after `set` of two distinct
keys and a successful `clear()` (`delete_table` then commit), `get` on a
previously set key does not return `NotFound` — `open_table` in the read
transaction fails with the table-missing error, refuting the claim as
stated. -/
theorem C5_counterexample :
    redbGet .str (redbClear (redbSetString (redbSetString redbFresh "key1"
      [103, 111]) "key2" [104, 105])) "key1" = .error .tableMissing ∧
    redbGet .str (redbClear (redbSetString (redbSetString redbFresh "key1"
      [103, 111]) "key2" [104, 105])) "key1" ≠ .error .notFound :=
  ⟨by decide, by decide⟩

/-- C5 amended: after a successful `clear()` no key is retrievable and no
partially-cleared state is observable: the pickledb backend (per-key
iteration over `get_all`) returns `NotFound` for every key, and the redb
backend (`delete_table`) returns the table-missing error for every key
until a subsequent `set` recreates the table. -/
theorem C5_amended :
    (∀ (db : List (String × SerdeValue)) (k : String) (sh : Shape),
      pickleGet sh (pickleClear db) k = .error .notFound) ∧
    (∀ (db : RedbDb) (k : String) (sh : Shape),
      redbGet sh (redbClear db) k = .error .tableMissing) := by
  constructor
  · intro db k sh
    simp [pickleGet, pickleClear_lookup]
  · intro db k sh
    rfl

/-- C6 (spec-modelled): `remove_and_get(k)` removes the record for `k` and
returns `Ok(Some(v))` with the decoded value when `k` was present (here:
present via a prior `set(k, v)`), afterwards `get(k)` returns `NotFound`;
on an absent key it returns `Ok(None)` — a successful "nothing removed"
result, not an error — and leaves the store unchanged. -/
theorem C6_remove_and_get (db : List (String × List Nat)) (k : String)
    (v : SerdeValue) (h : wfS v = true) :
    (removeAndGet (shapeOf v) (sledSet db k v) k).1 = .ok (some v) ∧
    sledGet (shapeOf v) (removeAndGet (shapeOf v) (sledSet db k v) k).2 k =
      .error .notFound ∧
    (∀ (db2 : List (String × List Nat)) (sh : Shape),
      lookupKV k db2 = none → removeAndGet sh db2 k = (.ok none, db2)) := by
  have hd : decMp (mpRecord v).length (mpRecord v) = some (lowerMp v, []) := by
    have h2 := decMp_enc (mpRecord v).length (lowerMp v) (wfM_lowerMp v h)
      (le_refl _) []
    simpa [mpRecord] using h2
  have hrag : removeAndGet (shapeOf v) (sledSet db k v) k =
      (.ok (some v), removeKV k (insertKV k (mpRecord v) db)) := by
    simp only [removeAndGet, sledSet, lookupKV_insertKV, hd,
      coerce_shapeOf_lower v h]
  refine ⟨by rw [hrag], ?_, ?_⟩
  · rw [hrag]
    simp only [sledGet, mpRecordGet, lookupKV_removeKV_same]
  · intro db2 sh hnone
    simp only [removeAndGet, hnone]

/-- C6 witness: evaluated on the test `User` value. -/
theorem C6_witness :
    (removeAndGet (shapeOf userV) (sledSet [] "user" userV) "user").1 =
      .ok (some userV) :=
  (C6_remove_and_get [] "user" userV (by decide)).1

/-- C7 (code bug): on a freshly constructed redb store (new database file,
table not yet created), `get` returns the redb table error — not
`NotFound` — contradicting the claim and the repo's own
`empty_db_not_found` test.  On the pickledb backend `NotFound` also does
not imply absence: a stored `String` "goodbye" read as a struct
`{ name: String, age: int }` consumes the whole record for `name` and then
fails at end of input for `age`, so bincode deserialization fails and the
present key reports `NotFound`; conversely the stored `User` record read
as a plain `String` succeeds by positional reinterpretation (legacy
bincode allows trailing bytes) and returns `Ok("alice")`, not an error. -/
theorem C7_get_error_evaluation :
    redbGet .str redbFresh "not_there" = .error .tableMissing ∧
    lookupKV "hello" (pickleSet [] "hello"
      (.str [103, 111, 111, 100, 98, 121, 101])) =
      some (.str [103, 111, 111, 100, 98, 121, 101]) ∧
    pickleGet
      (.strct (.cons [110, 97, 109, 101] .str
        (.cons [97, 103, 101] .int .nil)))
      (pickleSet [] "hello" (.str [103, 111, 111, 100, 98, 121, 101]))
      "hello" = .error .notFound ∧
    pickleGet .str (pickleSet [] "user" userV) "user" =
      .ok (.str [97, 108, 105, 99, 101]) :=
  ⟨by decide, by decide, by decide, by decide⟩

/-- C8: at lifecycle-manager startup, if `get` on the tracked type's key
fails with `NotFound` or a decode failure, the caller-supplied factory
produces the loaded value and the store is not written (the factory result
is not immediately set back). -/
theorem C8_startup_factory_fallback (db : RedbDb) (k : String) (sh : Shape)
    (factory : Unit → SerdeValue)
    (h : redbGet sh db k = .error .notFound ∨
      redbGet sh db k = .error .decode) :
    pluginBuild db k sh factory = (factory (), db) := by
  cases h with
  | inl h1 => simp [pluginBuild, h1]
  | inr h1 => simp [pluginBuild, h1]

/-- C8 witness: an existing empty table, so `get` fails with `NotFound`
and the loaded value is the factory output, store unchanged. -/
theorem C8_witness :
    pluginBuild (some []) "k" .str (fun _ => .int 7) = (.int 7, some []) :=
  C8_startup_factory_fallback (some []) "k" .str (fun _ => .int 7)
    (Or.inl (by decide))

/-- C9: when the save-on-change system's `set` fails, the failure is
reported to the diagnostic channel and does not propagate: the save system
returns normally with the store entries unchanged, and a later change can
still trigger a successful save after which `get` returns the saved
value. -/
theorem C9_save_failure_contained (entries : List (String × List Nat))
    (rest : List Bool) (k : String) (v : SerdeValue) (h : wfS v = true) :
    (saveResource ⟨entries, true :: rest⟩ k v).2 =
      some "Failed to persist resource" ∧
    (saveResource ⟨entries, true :: rest⟩ k v).1.entries = entries ∧
    (rest = [] →
      (saveResource (saveResource ⟨entries, true :: rest⟩ k v).1 k v).2 =
        none ∧
      sledGet (shapeOf v)
        (saveResource (saveResource ⟨entries, true :: rest⟩ k v).1 k v).1.entries
        k = .ok v) := by
  have h1 : saveResource ⟨entries, true :: rest⟩ k v =
      (⟨entries, rest⟩, some "Failed to persist resource") := rfl
  refine ⟨by rw [h1], by rw [h1], ?_⟩
  intro hrest
  subst hrest
  have h2 : saveResource ⟨entries, []⟩ k v =
      (⟨insertKV k (mpRecord v) entries, []⟩, none) := rfl
  rw [h1, h2]
  exact ⟨rfl, by simpa [sledGet] using mpRecordGet_insert entries k v h⟩

/-- C9 witness: a single scheduled write fault, evaluated on the test
`User` value. -/
theorem C9_witness :
    (saveResource ⟨[], [true]⟩ "cfg" userV).2 =
      some "Failed to persist resource" ∧
    (saveResource ⟨[], [true]⟩ "cfg" userV).1.entries = [] :=
  ⟨(C9_save_failure_contained [] [] "cfg" userV (by decide)).1,
   (C9_save_failure_contained [] [] "cfg" userV (by decide)).2.1⟩

/-- C10: at lifecycle-manager startup the factory fallback is invoked on
every possible `get` error — the `unwrap_or_else(|_| ...)` wildcard
catches storage and transaction errors as well as `NotFound` and decode
failures — so the startup load step never propagates a `get` error. -/
theorem C10_factory_on_every_error (db : RedbDb) (k : String) (sh : Shape)
    (factory : Unit → SerdeValue) (e : GetErr)
    (h : redbGet sh db k = .error e) :
    (pluginBuild db k sh factory).1 = factory () := by
  simp [pluginBuild, h]

/-- C10 witness: the storage-level table-missing error of a fresh redb
store also falls back to the factory. -/
theorem C10_witness :
    (pluginBuild redbFresh "k" .str (fun _ => .nil)).1 = .nil :=
  C10_factory_on_every_error redbFresh "k" .str (fun _ => .nil)
    .tableMissing (by decide)
